import Mathlib

/-
  A shallow embedding of the eventsource `Server` broker
  (vendor/github.com/launchdarkly/eventsource/server.go).

  The broker's `run` loop owns two maps, `subs : channel -> set of
  *subscription` and `repos : channel -> Repository`, and serves five
  select cases: registration, unregister (a channel of capacity 2),
  publish, subscribe and quit.  Each subscription carries an output Go
  channel `out` of capacity `srv.BufferSize`.

  Go channels are modelled explicitly: a queue of buffered items plus a
  `closed` flag.  A send on a closed channel panics in Go, which we model
  by a sticky `panicked` flag; a blocking send with no possible receiver
  deadlocks, modelled by a sticky `deadlocked` flag (the only such send
  inside the broker is `srv.unregister <- s` when the capacity-2 buffer
  is full, whose sole receiver is the blocked broker loop itself).
  The external writer loop's receive from `out` and one blocking-send
  iteration of the `replay` goroutine are scheduled as explicit requests,
  which linearizes the concurrent executions the claims quantify over.
-/

namespace Eventsource

/-- The `eventOrComment` payload fanned out by the server: an `Event` or a
`comment`, treated opaquely by the broker. -/
inductive EventOrComment where
  | event (payload : Nat)
  | comment (value : String)
  deriving DecidableEq, Repr

/-- A `Repository`: its `Replay(channel, id)` method yields a finite sequence
of historical items. -/
def Repository : Type := String → String → List EventOrComment

/-- One `subscription` object together with the state of its output channel
`out` (buffered items, capacity, closed flag), the history `received` of every
item ever sent into `out`, and the remaining items of its `replay` goroutine. -/
structure SubState where
  channel : String
  lastEventID : String
  capacity : Nat
  queue : List EventOrComment
  closed : Bool
  received : List EventOrComment
  replayPending : List EventOrComment
  replayStarted : Bool
  deriving DecidableEq, Repr

/-- Association-list lookup keyed by decidable equality. -/
def lookupA {α β : Type} [DecidableEq α] : List (α × β) → α → Option β
  | [], _ => none
  | (k, v) :: rest, k' => if k = k' then some v else lookupA rest k'

/-- Association-list update or insert. -/
def updAssoc {α β : Type} [DecidableEq α] : List (α × β) → α → β → List (α × β)
  | [], k, v => [(k, v)]
  | (k', v') :: rest, k, v =>
      if k' = k then (k, v) :: rest else (k', v') :: updAssoc rest k v

/-- The whole state owned by `Server.run`, plus the buffered `unregister`
channel and sticky flags for the failure modes of the Go runtime. -/
structure BrokerState where
  subsMap : List (String × List Nat)
  repos : List (String × Repository)
  pool : List (Nat × SubState)
  unregisterBuf : List Nat
  replayAll : Bool
  terminated : Bool
  panicked : Bool
  deadlocked : Bool

/-- The subscription ids in `subs[c]`; a missing key reads as the empty set,
as a nil Go map does. -/
def getIds (st : BrokerState) (c : String) : List Nat :=
  (lookupA st.subsMap c).getD []

/-- The subscription object with the given id. -/
def getSub (st : BrokerState) (id : Nat) : Option SubState :=
  lookupA st.pool id

/-- Replace the subscription object with the given id. -/
def setSub (st : BrokerState) (id : Nat) (s : SubState) : BrokerState :=
  { st with pool := updAssoc st.pool id s }

/-- The closed flag of the subscription's `out` channel, when the id exists. -/
def optClosed (st : BrokerState) (id : Nat) : Option Bool :=
  (getSub st id).map (fun s => s.closed)

/-- `subs[ch][sub] = struct{}{}` preceded by creation of the inner map when
absent: inserts the id into the channel's set. -/
def addToChannel (m : List (String × List Nat)) (c : String) (id : Nat) :
    List (String × List Nat) :=
  match lookupA m c with
  | none => updAssoc m c [id]
  | some ids => updAssoc m c (if id ∈ ids then ids else ids ++ [id])

/-- `delete(subs[sub.channel], sub)`: removes the id from the channel's set;
on a missing channel the nil-map delete is a no-op. -/
def removeFromChannel : List (String × List Nat) → String → Nat → List (String × List Nat)
  | [], _, _ => []
  | (k, ids) :: rest, c, id =>
      (if k = c then (k, ids.filter (fun j => j ≠ id)) else (k, ids)) ::
        removeFromChannel rest c id

/-- Whether the subscription's `out` buffer is at capacity. -/
def isFull (st : BrokerState) (id : Nat) : Bool :=
  match getSub st id with
  | none => false
  | some s => s.capacity ≤ s.queue.length

/-- One iteration of the publish fan-out body:
`select { case s.out <- item: default: srv.unregister <- s; close(s.out) }`.
A send on a closed channel panics; on a full open channel the default branch
sends the subscription to the capacity-2 `unregister` buffer (deadlocking the
broker when that buffer is full, since the broker is its only receiver) and
then closes `out`. -/
def fanoutOne (st : BrokerState) (item : EventOrComment) (id : Nat) : BrokerState :=
  if st.panicked || st.deadlocked then st
  else
    match lookupA st.pool id with
    | none => st
    | some s =>
      if s.closed then { st with panicked := true }
      else if s.queue.length < s.capacity then
        setSub st id { s with queue := s.queue ++ [item], received := s.received ++ [item] }
      else if st.unregisterBuf.length < 2 then
        setSub { st with unregisterBuf := st.unregisterBuf ++ [id] } id { s with closed := true }
      else { st with deadlocked := true }

/-- `for s := range subs[c] { ... }`: fan out one item over one channel. -/
def fanoutChannel (st : BrokerState) (item : EventOrComment) (c : String) : BrokerState :=
  (getIds st c).foldl (fun acc id => fanoutOne acc item id) st

/-- `for _, c := range pub.channels { ... }`: the whole publish case. -/
def handlePub (st : BrokerState) (channels : List String) (item : EventOrComment) :
    BrokerState :=
  channels.foldl (fun acc c => fanoutChannel acc item c) st

/-- The subscribe case: insert into the channel's set and, when
`srv.ReplayAll || len(sub.lastEventID) > 0` and a repository is registered,
start the `replay` goroutine (recorded by `replayStarted` and the pending
item list it will push). -/
def handleSubscribe (st : BrokerState) (id : Nat) : BrokerState :=
  match lookupA st.pool id with
  | none => st
  | some s =>
    let st1 := { st with subsMap := addToChannel st.subsMap s.channel id }
    if st.replayAll || s.lastEventID.length != 0 then
      match lookupA st.repos s.channel with
      | some repo =>
          setSub st1 id
            { s with replayPending := repo s.channel s.lastEventID, replayStarted := true }
      | none => st1
    else st1

/-- The unregister case: receive one subscription from the buffered channel
and `delete(subs[sub.channel], sub)`.  The queue is not touched. -/
def handleUnregister (st : BrokerState) : BrokerState :=
  match st.unregisterBuf with
  | [] => st
  | id :: rest =>
    let st1 := { st with unregisterBuf := rest }
    match lookupA st1.pool id with
    | none => st1
    | some s => { st1 with subsMap := removeFromChannel st1.subsMap s.channel id }

/-- One `close(s.out)` of the quit case; closing an already-closed Go
channel panics. -/
def closeOne (st : BrokerState) (id : Nat) : BrokerState :=
  if st.panicked then st
  else
    match lookupA st.pool id with
    | none => st
    | some s =>
      if s.closed then { st with panicked := true }
      else setSub st id { s with closed := true }

/-- `close(s.out)` over a list of subscriptions; a panic aborts the
iteration. -/
def closeAll (st : BrokerState) (ids : List Nat) : BrokerState :=
  ids.foldl closeOne st

/-- Every subscription id reachable from the fan-out map, in iteration
order. -/
def allIds (st : BrokerState) : List Nat :=
  st.subsMap.foldr (fun p acc => p.2 ++ acc) []

/-- The quit case: close every subscription's `out` and leave the loop. -/
def handleQuit (st : BrokerState) : BrokerState :=
  { closeAll st (allIds st) with terminated := true }

/-- One schedulable transition: the five select cases of `Server.run`, the
handler-side construction of a `subscription` object, the handler-side send
into the `unregister` channel, one receive by the external writer loop, and
one blocking-send iteration of the `replay` goroutine. -/
inductive Request where
  | mkSub (id : Nat) (channel lastEventID : String) (capacity : Nat)
  | subscribe (id : Nat)
  | register (channel : String) (repo : Repository)
  | publish (channels : List String) (item : EventOrComment)
  | sendUnregister (id : Nat)
  | recvUnregister
  | readOut (id : Nat)
  | replayStep (id : Nat)
  | quit

/-- The broker loop can no longer take a request: it has returned, crashed,
or is blocked forever on the internal unregister hand-off. -/
def brokerFrozen (st : BrokerState) : Bool :=
  st.terminated || st.panicked || st.deadlocked

/-- One step of the linearized system.  A panic is fatal to the whole
process; a terminated or deadlocked broker takes no request, while the
external reader and the replay goroutine keep running. -/
def serverStep (st : BrokerState) (r : Request) : BrokerState :=
  if st.panicked then st
  else
    match r with
    | .mkSub id c lastID cap =>
        { st with pool := updAssoc st.pool id ⟨c, lastID, cap, [], false, [], [], false⟩ }
    | .subscribe id => if brokerFrozen st then st else handleSubscribe st id
    | .register c repo =>
        if brokerFrozen st then st else { st with repos := updAssoc st.repos c repo }
    | .publish cs item => if brokerFrozen st then st else handlePub st cs item
    | .sendUnregister id =>
        if st.unregisterBuf.length < 2 then
          { st with unregisterBuf := st.unregisterBuf ++ [id] }
        else st
    | .recvUnregister => if brokerFrozen st then st else handleUnregister st
    | .readOut id =>
        match lookupA st.pool id with
        | none => st
        | some s =>
          match s.queue with
          | [] => st
          | _ :: restQ => setSub st id { s with queue := restQ }
    | .replayStep id =>
        match lookupA st.pool id with
        | none => st
        | some s =>
          match s.replayPending with
          | [] => st
          | item :: restP =>
            if s.closed then { st with panicked := true }
            else if s.queue.length < s.capacity then
              setSub st id
                { s with queue := s.queue ++ [item], received := s.received ++ [item],
                         replayPending := restP }
            else st
    | .quit => if brokerFrozen st then st else handleQuit st

/-- A run of the system over a schedule of requests. -/
def serverRun (st : BrokerState) (rs : List Request) : BrokerState :=
  rs.foldl serverStep st

/-- The state `NewServer` starts `run` in: empty maps, empty unregister
buffer, no failure. -/
def initialState (replayAll : Bool) : BrokerState :=
  ⟨[], [], [], [], replayAll, false, false, false⟩

/-- Requests that are not broker transitions: a receive by the external
writer loop or one send of the `replay` goroutine. -/
def isDrainOrReplay : Request → Bool
  | .readOut _ => true
  | .replayStep _ => true
  | _ => false

/-- A sequence of single-channel publishes of the given items. -/
def pubs (c : String) (items : List EventOrComment) : List Request :=
  items.map (fun it => Request.publish [c] it)

/-- Trace for the slow-consumer race: one subscriber of capacity 1, two
publishes; the second trips the slow-consumer branch, closing `out` while
the subscription is still in the fan-out set. -/
def c1trace : List Request :=
  [ .mkSub 0 "a" "" 1, .subscribe 0,
    .publish ["a"] (.event 1), .publish ["a"] (.event 2) ]

/-- A repository yielding three historical items, as registered in the
replay-panic trace. -/
def repoC2 : Repository := fun _ _ => [.event 101, .event 102, .event 103]

/-- Trace leaving the replay goroutine with items still pending while the
broker has closed the subscription's queue via the slow-consumer branch. -/
def c2trace : List Request :=
  [ .register "news" repoC2, .mkSub 0 "news" "tok" 1, .subscribe 0,
    .replayStep 0, .publish ["news"] (.event 5) ]

/-- Trace processing one Unsubscribe for an active subscription. -/
def c3trace : List Request :=
  [ .mkSub 0 "a" "" 4, .subscribe 0, .sendUnregister 0, .recvUnregister ]

/-- Trace with three capacity-1 subscribers and two publishes: the second
publish trips three slow consumers, overflowing the capacity-2 unregister
buffer. -/
def c4trace : List Request :=
  [ .mkSub 0 "a" "" 1, .mkSub 1 "a" "" 1, .mkSub 2 "a" "" 1,
    .subscribe 0, .subscribe 1, .subscribe 2,
    .publish ["a"] (.event 1), .publish ["a"] (.event 2) ]

/-- The spec's slow-consumer acceptance trace: capacity 2, three publishes
with no draining, then the broker processes the buffered unregister. -/
def c4strace : List Request :=
  [ .mkSub 0 "ch" "" 2, .subscribe 0,
    .publish ["ch"] (.event 1), .publish ["ch"] (.event 2), .publish ["ch"] (.event 3),
    .recvUnregister ]

/-- Trace in which a slow-consumer trip leaves an already-closed subscription
in the fan-out map and the broker then processes the quit request. -/
def c6trace : List Request :=
  [ .mkSub 0 "a" "" 1, .mkSub 1 "a" "" 5,
    .subscribe 0, .subscribe 1,
    .publish ["a"] (.event 1), .publish ["a"] (.event 2), .quit ]

/-- A repository yielding three historical items for the replay acceptance
trace. -/
def repoC8 : Repository := fun _ _ => [.event 101, .event 102, .event 103]

/-- The spec's replay acceptance trace: three replayed items, then one live
publish. -/
def c8trace : List Request :=
  [ .register "news" repoC8, .mkSub 0 "news" "tok" 5, .subscribe 0,
    .replayStep 0, .replayStep 0, .replayStep 0, .publish ["news"] (.event 4) ]

/-- Base trace for exercising one Unsubscribe hand-off. -/
def c3wtrace : List Request :=
  [ .mkSub 0 "a" "" 4, .subscribe 0, .sendUnregister 0 ]

/-- Base trace with one full-queue and one roomy subscriber on channel b. -/
def c4wtrace : List Request :=
  [ .mkSub 0 "b" "" 1, .mkSub 1 "b" "" 5,
    .subscribe 0, .subscribe 1, .publish ["b"] (.event 1) ]

/-- Base trace with one healthy subscriber on channel a. -/
def c5wtrace : List Request :=
  [ .mkSub 0 "a" "" 3, .subscribe 0 ]

/-- Base trace with one open subscription, for a clean shutdown. -/
def c6wtrace : List Request :=
  [ .mkSub 0 "a" "" 2, .subscribe 0 ]

/-- Trace processing one Unsubscribe and leaving a second one buffered. -/
def c7wtrace : List Request :=
  [ .mkSub 0 "a" "" 2, .subscribe 0, .sendUnregister 0, .sendUnregister 0, .recvUnregister ]

/-- Base trace with a registered repository and a resuming subscription. -/
def c8wtrace : List Request :=
  [ .register "news" repoC8, .mkSub 0 "news" "tok" 5, .subscribe 0 ]

/-- A drain schedule: replay sends interleaved with one reader receive. -/
def c8wsched : List Request :=
  [ .replayStep 0, .readOut 0, .replayStep 0, .replayStep 0 ]

/-- A repository yielding one item, used for the subscribe acceptance state. -/
def repoC9 : Repository := fun _ _ => [.event 7]

/-- Base trace with a registered repository and a fresh subscription object. -/
def c9wtrace : List Request :=
  [ .register "news" repoC9, .mkSub 0 "news" "tok" 4 ]

/-- Base trace with a subscription object on a channel the broker never saw. -/
def c10wtrace : List Request :=
  [ .mkSub 0 "x" "" 3, .sendUnregister 0 ]

/-- Fan-out of one item over a list of subscription ids; `fanoutChannel`
specialised to an explicit id list. -/
def foldFan (st : BrokerState) (item : EventOrComment) (ids : List Nat) : BrokerState :=
  ids.foldl (fun acc id => fanoutOne acc item id) st

theorem lookupA_updAssoc_self {α β : Type} [DecidableEq α] (m : List (α × β)) (k : α) (v : β) :
    lookupA (updAssoc m k v) k = some v := by
  induction m with
  | nil => simp [updAssoc, lookupA]
  | cons p rest ih =>
    obtain ⟨k', v'⟩ := p
    by_cases h : k' = k
    · simp [updAssoc, h, lookupA]
    · simp [updAssoc, h, lookupA, ih]

theorem lookupA_updAssoc_ne {α β : Type} [DecidableEq α] (m : List (α × β)) (k k' : α) (v : β)
    (h : k ≠ k') : lookupA (updAssoc m k v) k' = lookupA m k' := by
  induction m with
  | nil => simp [updAssoc, lookupA, h]
  | cons p rest ih =>
    obtain ⟨k₀, v₀⟩ := p
    by_cases h₀ : k₀ = k
    · simp [updAssoc, h₀, lookupA, h]
    · simp only [updAssoc, h₀, if_false, lookupA]
      by_cases h₁ : k₀ = k'
      · simp [h₁]
      · simp [h₁, ih]

theorem lookupA_none_ne {α β : Type} [DecidableEq α] (m : List (α × β)) (k : α)
    (h : lookupA m k = none) : ∀ p ∈ m, p.1 ≠ k := by
  induction m with
  | nil => intro p hp; cases hp
  | cons q rest ih =>
    intro p hp
    obtain ⟨k', v'⟩ := q
    by_cases hk : k' = k
    · simp [lookupA, hk] at h
    · simp only [lookupA, hk, if_false] at h
      rcases List.mem_cons.mp hp with hq | hq
      · subst hq; exact hk
      · exact ih h p hq

theorem getSub_setSub_self (st : BrokerState) (i : Nat) (s : SubState) :
    getSub (setSub st i s) i = some s := by
  simp [getSub, setSub, lookupA_updAssoc_self]

theorem getSub_setSub_ne (st : BrokerState) (i j : Nat) (s : SubState) (h : j ≠ i) :
    getSub (setSub st j s) i = getSub st i := by
  simp [getSub, setSub, lookupA_updAssoc_ne _ _ _ _ h]

theorem fanoutOne_frozen (st : BrokerState) (it : EventOrComment) (j : Nat)
    (h : (st.panicked || st.deadlocked) = true) : fanoutOne st it j = st := by
  unfold fanoutOne
  simp [h]

theorem fanoutOne_nosub (st : BrokerState) (it : EventOrComment) (j : Nat)
    (h : lookupA st.pool j = none) : fanoutOne st it j = st := by
  unfold fanoutOne
  simp [h]

theorem fanoutOne_panic (st : BrokerState) (it : EventOrComment) (j : Nat) (s : SubState)
    (hg : (st.panicked || st.deadlocked) = false)
    (hl : lookupA st.pool j = some s) (hc : s.closed = true) :
    fanoutOne st it j = { st with panicked := true } := by
  unfold fanoutOne
  simp [hg, hl, hc]

theorem fanoutOne_enqueue (st : BrokerState) (it : EventOrComment) (j : Nat) (s : SubState)
    (hg : (st.panicked || st.deadlocked) = false)
    (hl : lookupA st.pool j = some s) (hc : s.closed = false)
    (hroom : s.queue.length < s.capacity) :
    fanoutOne st it j =
      setSub st j { s with queue := s.queue ++ [it], received := s.received ++ [it] } := by
  unfold fanoutOne
  simp [hg, hl, hc, hroom]

theorem fanoutOne_trip (st : BrokerState) (it : EventOrComment) (j : Nat) (s : SubState)
    (hg : (st.panicked || st.deadlocked) = false)
    (hl : lookupA st.pool j = some s) (hc : s.closed = false)
    (hroom : ¬ s.queue.length < s.capacity)
    (hbuf : st.unregisterBuf.length < 2) :
    fanoutOne st it j =
      setSub { st with unregisterBuf := st.unregisterBuf ++ [j] } j { s with closed := true } := by
  unfold fanoutOne
  simp [hg, hl, hc, hroom, hbuf]

theorem fanoutOne_deadlock (st : BrokerState) (it : EventOrComment) (j : Nat) (s : SubState)
    (hg : (st.panicked || st.deadlocked) = false)
    (hl : lookupA st.pool j = some s) (hc : s.closed = false)
    (hroom : ¬ s.queue.length < s.capacity)
    (hbuf : ¬ st.unregisterBuf.length < 2) :
    fanoutOne st it j = { st with deadlocked := true } := by
  unfold fanoutOne
  simp [hg, hl, hc, hroom, hbuf]

theorem fanoutOne_shape (st : BrokerState) (it : EventOrComment) (j : Nat) :
    fanoutOne st it j = st ∨
    fanoutOne st it j = { st with panicked := true } ∨
    (∃ s, lookupA st.pool j = some s ∧
      fanoutOne st it j =
        setSub st j { s with queue := s.queue ++ [it], received := s.received ++ [it] }) ∨
    (∃ s, lookupA st.pool j = some s ∧
      fanoutOne st it j =
        setSub { st with unregisterBuf := st.unregisterBuf ++ [j] } j { s with closed := true }) ∨
    fanoutOne st it j = { st with deadlocked := true } := by
  cases hg : (st.panicked || st.deadlocked) with
  | true => exact Or.inl (fanoutOne_frozen st it j hg)
  | false =>
    cases hl : lookupA st.pool j with
    | none => exact Or.inl (fanoutOne_nosub st it j hl)
    | some s =>
      cases hc : s.closed with
      | true => exact Or.inr (Or.inl (fanoutOne_panic st it j s hg hl hc))
      | false =>
        by_cases hroom : s.queue.length < s.capacity
        · exact Or.inr (Or.inr (Or.inl ⟨s, rfl, fanoutOne_enqueue st it j s hg hl hc hroom⟩))
        · by_cases hbuf : st.unregisterBuf.length < 2
          · exact Or.inr (Or.inr (Or.inr (Or.inl
              ⟨s, rfl, fanoutOne_trip st it j s hg hl hc hroom hbuf⟩)))
          · exact Or.inr (Or.inr (Or.inr (Or.inr
              (fanoutOne_deadlock st it j s hg hl hc hroom hbuf))))

theorem fanoutOne_of_panicked (st : BrokerState) (it : EventOrComment) (j : Nat)
    (h : st.panicked = true) : fanoutOne st it j = st :=
  fanoutOne_frozen st it j (by simp [h])

theorem fanoutOne_of_deadlocked (st : BrokerState) (it : EventOrComment) (j : Nat)
    (h : st.deadlocked = true) : fanoutOne st it j = st :=
  fanoutOne_frozen st it j (by simp [h])

theorem fanoutOne_subsMap (st : BrokerState) (it : EventOrComment) (j : Nat) :
    (fanoutOne st it j).subsMap = st.subsMap := by
  rcases fanoutOne_shape st it j with h | h | ⟨s, _, h⟩ | ⟨s, _, h⟩ | h <;> simp [h, setSub]

theorem fanoutOne_terminated (st : BrokerState) (it : EventOrComment) (j : Nat) :
    (fanoutOne st it j).terminated = st.terminated := by
  rcases fanoutOne_shape st it j with h | h | ⟨s, _, h⟩ | ⟨s, _, h⟩ | h <;> simp [h, setSub]

theorem fanoutOne_repos (st : BrokerState) (it : EventOrComment) (j : Nat) :
    (fanoutOne st it j).repos = st.repos := by
  rcases fanoutOne_shape st it j with h | h | ⟨s, _, h⟩ | ⟨s, _, h⟩ | h <;> simp [h, setSub]

theorem fanoutOne_panicked_mono (st : BrokerState) (it : EventOrComment) (j : Nat)
    (h : st.panicked = true) : (fanoutOne st it j).panicked = true := by
  rw [fanoutOne_of_panicked st it j h]; exact h

theorem fanoutOne_deadlocked_mono (st : BrokerState) (it : EventOrComment) (j : Nat)
    (h : st.deadlocked = true) : (fanoutOne st it j).deadlocked = true := by
  rw [fanoutOne_of_deadlocked st it j h]; exact h

theorem fanoutOne_getSub_ne (st : BrokerState) (it : EventOrComment) (i j : Nat)
    (hij : i ≠ j) : getSub (fanoutOne st it j) i = getSub st i := by
  rcases fanoutOne_shape st it j with h | h | ⟨s, _, h⟩ | ⟨s, _, h⟩ | h
  · rw [h]
  · rw [h]; rfl
  · rw [h, getSub_setSub_ne _ _ _ _ (Ne.symm hij)]
  · rw [h, getSub_setSub_ne _ _ _ _ (Ne.symm hij)]; rfl
  · rw [h]; rfl

theorem fanoutOne_closed_mono (st : BrokerState) (it : EventOrComment) (i j : Nat)
    (h : optClosed st i = some true) : optClosed (fanoutOne st it j) i = some true := by
  by_cases hij : i = j
  · subst hij
    rcases fanoutOne_shape st it i with hf | hf | ⟨s, hl, hf⟩ | ⟨s, hl, hf⟩ | hf
    · rw [hf]; exact h
    · rw [hf]; exact h
    · rw [hf]
      have hs : s.closed = true := by
        simp [optClosed, getSub, hl] at h; exact h
      simp [optClosed, getSub_setSub_self, hs]
    · rw [hf]
      simp [optClosed, getSub_setSub_self]
    · rw [hf]; exact h
  · rw [optClosed, fanoutOne_getSub_ne st it i j hij]; exact h

theorem fanoutOne_isSome (st : BrokerState) (it : EventOrComment) (i j : Nat)
    (h : (getSub st i).isSome = true) : (getSub (fanoutOne st it j) i).isSome = true := by
  by_cases hij : i = j
  · subst hij
    rcases fanoutOne_shape st it i with hf | hf | ⟨s, hl, hf⟩ | ⟨s, hl, hf⟩ | hf
    · rw [hf]; exact h
    · rw [hf]; exact h
    · rw [hf, getSub_setSub_self]; rfl
    · rw [hf, getSub_setSub_self]; rfl
    · rw [hf]; exact h
  · rw [fanoutOne_getSub_ne st it i j hij]; exact h

theorem fanoutOne_bufMem_mono (st : BrokerState) (it : EventOrComment) (i j : Nat)
    (h : i ∈ st.unregisterBuf) : i ∈ (fanoutOne st it j).unregisterBuf := by
  rcases fanoutOne_shape st it j with hf | hf | ⟨s, _, hf⟩ | ⟨s, _, hf⟩ | hf <;>
    simp [hf, setSub, List.mem_append, h]

theorem foldFan_nil (st : BrokerState) (it : EventOrComment) : foldFan st it [] = st := rfl

theorem foldFan_cons (st : BrokerState) (it : EventOrComment) (j : Nat) (ids : List Nat) :
    foldFan st it (j :: ids) = foldFan (fanoutOne st it j) it ids := rfl

theorem foldFan_subsMap (ids : List Nat) : ∀ st it,
    (foldFan st it ids).subsMap = st.subsMap := by
  induction ids with
  | nil => intro st it; rfl
  | cons j ids ih =>
    intro st it
    rw [foldFan_cons, ih, fanoutOne_subsMap]

theorem foldFan_terminated (ids : List Nat) : ∀ st it,
    (foldFan st it ids).terminated = st.terminated := by
  induction ids with
  | nil => intro st it; rfl
  | cons j ids ih =>
    intro st it
    rw [foldFan_cons, ih, fanoutOne_terminated]

theorem foldFan_repos (ids : List Nat) : ∀ st it,
    (foldFan st it ids).repos = st.repos := by
  induction ids with
  | nil => intro st it; rfl
  | cons j ids ih =>
    intro st it
    rw [foldFan_cons, ih, fanoutOne_repos]

theorem foldFan_of_panicked (ids : List Nat) : ∀ st it,
    st.panicked = true → foldFan st it ids = st := by
  induction ids with
  | nil => intro st it _; rfl
  | cons j ids ih =>
    intro st it h
    rw [foldFan_cons, fanoutOne_of_panicked st it j h, ih st it h]

theorem foldFan_of_deadlocked (ids : List Nat) : ∀ st it,
    st.deadlocked = true → foldFan st it ids = st := by
  induction ids with
  | nil => intro st it _; rfl
  | cons j ids ih =>
    intro st it h
    rw [foldFan_cons, fanoutOne_of_deadlocked st it j h, ih st it h]

theorem foldFan_panicked_back (ids : List Nat) (st : BrokerState) (it : EventOrComment)
    (h : (foldFan st it ids).panicked = false) : st.panicked = false := by
  cases hp : st.panicked with
  | false => rfl
  | true => rw [foldFan_of_panicked ids st it hp] at h; rw [h] at hp; cases hp

theorem foldFan_deadlocked_back (ids : List Nat) (st : BrokerState) (it : EventOrComment)
    (h : (foldFan st it ids).deadlocked = false) : st.deadlocked = false := by
  cases hp : st.deadlocked with
  | false => rfl
  | true => rw [foldFan_of_deadlocked ids st it hp] at h; rw [h] at hp; cases hp

theorem foldFan_closed_mono (ids : List Nat) : ∀ st it i,
    optClosed st i = some true → optClosed (foldFan st it ids) i = some true := by
  induction ids with
  | nil => intro st it i h; exact h
  | cons j ids ih =>
    intro st it i h
    rw [foldFan_cons]
    exact ih _ it i (fanoutOne_closed_mono st it i j h)

theorem foldFan_frame (ids : List Nat) : ∀ st it i, i ∉ ids →
    getSub (foldFan st it ids) i = getSub st i := by
  induction ids with
  | nil => intro st it i _; rfl
  | cons j ids ih =>
    intro st it i hni
    rw [foldFan_cons, ih _ it i (fun hmem => hni (List.mem_cons_of_mem j hmem)),
      fanoutOne_getSub_ne st it i j (fun hq => hni (hq ▸ List.mem_cons_self j ids))]

theorem foldFan_isSome (ids : List Nat) : ∀ st it i,
    (getSub st i).isSome = true → (getSub (foldFan st it ids) i).isSome = true := by
  induction ids with
  | nil => intro st it i h; exact h
  | cons j ids ih =>
    intro st it i h
    rw [foldFan_cons]
    exact ih _ it i (fanoutOne_isSome st it i j h)

theorem foldFan_bufMem_mono (ids : List Nat) : ∀ st it i,
    i ∈ st.unregisterBuf → i ∈ (foldFan st it ids).unregisterBuf := by
  induction ids with
  | nil => intro st it i h; exact h
  | cons j ids ih =>
    intro st it i h
    rw [foldFan_cons]
    exact ih _ it i (fanoutOne_bufMem_mono st it i j h)

theorem foldFan_received (ids : List Nat) : ∀ st it i s,
    st.panicked = false → st.deadlocked = false →
    getSub st i = some s → s.closed = false →
    i ∈ ids → ids.Nodup →
    (foldFan st it ids).panicked = false →
    (foldFan st it ids).deadlocked = false →
    optClosed (foldFan st it ids) i = some false →
    getSub (foldFan st it ids) i =
      some { s with queue := s.queue ++ [it], received := s.received ++ [it] } := by
  induction ids with
  | nil => intro st it i s _ _ _ _ hmem _ _ _ _; cases hmem
  | cons j ids ih =>
    intro st it i s hp hd hs hc hmem hnd hRp hRd hRo
    rw [foldFan_cons] at hRp hRd hRo ⊢
    by_cases hij : i = j
    · subst hij
      by_cases hroom : s.queue.length < s.capacity
      · have hA : fanoutOne st it i =
            setSub st i { s with queue := s.queue ++ [it], received := s.received ++ [it] } :=
          fanoutOne_enqueue st it i s (by simp [hp, hd]) hs hc hroom
        have hni : i ∉ ids := (List.nodup_cons.mp hnd).1
        rw [hA, foldFan_frame ids _ it i hni, getSub_setSub_self]
      · by_cases hbuf : st.unregisterBuf.length < 2
        · have hA := fanoutOne_trip st it i s (by simp [hp, hd]) hs hc hroom hbuf
          have hcl : optClosed (fanoutOne st it i) i = some true := by
            rw [hA, optClosed, getSub_setSub_self]
            rfl
          have h1 := foldFan_closed_mono ids _ it i hcl
          rw [h1] at hRo
          cases hRo
        · have hA := fanoutOne_deadlock st it i s (by simp [hp, hd]) hs hc hroom hbuf
          have h1 : (foldFan (fanoutOne st it i) it ids).deadlocked = true := by
            rw [hA, foldFan_of_deadlocked ids _ it rfl]
          rw [h1] at hRd
          cases hRd
    · have hp1 : (fanoutOne st it j).panicked = false := foldFan_panicked_back ids _ it hRp
      have hd1 : (fanoutOne st it j).deadlocked = false := foldFan_deadlocked_back ids _ it hRd
      have hs1 : getSub (fanoutOne st it j) i = some s := by
        rw [fanoutOne_getSub_ne st it i j hij]; exact hs
      have hmem1 : i ∈ ids := by
        rcases List.mem_cons.mp hmem with h | h
        · exact absurd h hij
        · exact h
      exact ih (fanoutOne st it j) it i s hp1 hd1 hs1 hc hmem1
        (List.nodup_cons.mp hnd).2 hRp hRd hRo

theorem serverRun_nil (st : BrokerState) : serverRun st [] = st := rfl

theorem serverRun_cons (st : BrokerState) (r : Request) (rs : List Request) :
    serverRun st (r :: rs) = serverRun (serverStep st r) rs := rfl

theorem serverStep_of_panicked (st : BrokerState) (r : Request)
    (h : st.panicked = true) : serverStep st r = st := by
  unfold serverStep
  simp [h]

theorem serverStep_panicked_mono (st : BrokerState) (r : Request)
    (h : st.panicked = true) : (serverStep st r).panicked = true := by
  rw [serverStep_of_panicked st r h]; exact h

theorem serverStep_deadlocked_mono (st : BrokerState) (r : Request)
    (h : st.deadlocked = true) : (serverStep st r).deadlocked = true := by
  cases hp : st.panicked with
  | true => rw [serverStep_of_panicked st r hp]; exact h
  | false =>
    have hf : brokerFrozen st = true := by simp [brokerFrozen, h]
    cases r <;> simp [serverStep, hp, hf, h, setSub] <;>
      (repeat' split) <;> simp [setSub, h]

theorem serverRun_panicked_back (rs : List Request) : ∀ st,
    (serverRun st rs).panicked = false → st.panicked = false := by
  induction rs with
  | nil => intro st h; exact h
  | cons r rs ih =>
    intro st h
    cases hp : st.panicked with
    | false => rfl
    | true =>
      have := ih (serverStep st r) (by rw [serverRun_cons] at h; exact h)
      rw [serverStep_panicked_mono st r hp] at this
      cases this

theorem serverRun_deadlocked_back (rs : List Request) : ∀ st,
    (serverRun st rs).deadlocked = false → st.deadlocked = false := by
  induction rs with
  | nil => intro st h; exact h
  | cons r rs ih =>
    intro st h
    cases hp : st.deadlocked with
    | false => rfl
    | true =>
      have := ih (serverStep st r) (by rw [serverRun_cons] at h; exact h)
      rw [serverStep_deadlocked_mono st r hp] at this
      cases this

theorem handlePub_single (st : BrokerState) (c : String) (it : EventOrComment) :
    handlePub st [c] it = foldFan st it (getIds st c) := rfl

theorem serverStep_publish_single (st : BrokerState) (c : String) (it : EventOrComment)
    (hp : st.panicked = false) (hterm : st.terminated = false) (hd : st.deadlocked = false) :
    serverStep st (.publish [c] it) = foldFan st it (getIds st c) := by
  unfold serverStep
  simp [hp, brokerFrozen, hterm, hd, handlePub_single]

theorem pubs_cons (c : String) (it : EventOrComment) (L : List EventOrComment) :
    pubs c (it :: L) = Request.publish [c] it :: pubs c L := rfl

theorem append_cons_eq {α : Type} (xs : List α) (a : α) (ys : List α) :
    xs ++ a :: ys = (xs ++ [a]) ++ ys := by simp

theorem getIds_congr (st1 st : BrokerState) (c : String)
    (h : st1.subsMap = st.subsMap) : getIds st1 c = getIds st c := by
  rw [getIds, getIds, h]

theorem serverStep_publish_closed_mono (st : BrokerState) (c : String) (it : EventOrComment)
    (i : Nat) (h : optClosed st i = some true) :
    optClosed (serverStep st (.publish [c] it)) i = some true := by
  cases hp : st.panicked with
  | true => rw [serverStep_of_panicked _ _ hp]; exact h
  | false =>
    cases hf : brokerFrozen st with
    | true => unfold serverStep; simp [hp, hf]; exact h
    | false =>
      unfold serverStep
      simp only [hp, hf, Bool.false_eq_true, if_false, handlePub_single]
      exact foldFan_closed_mono _ _ _ _ h

theorem pubsRun_closed_mono (c : String) (L : List EventOrComment) : ∀ st i,
    optClosed st i = some true → optClosed (serverRun st (pubs c L)) i = some true := by
  induction L with
  | nil => intro st i h; exact h
  | cons it L ih =>
    intro st i h
    rw [pubs_cons, serverRun_cons]
    exact ih _ i (serverStep_publish_closed_mono st c it i h)

theorem serverStep_publish_isSome (st : BrokerState) (c : String) (it : EventOrComment)
    (i : Nat) (h : (getSub st i).isSome = true) :
    (getSub (serverStep st (.publish [c] it)) i).isSome = true := by
  cases hp : st.panicked with
  | true => rw [serverStep_of_panicked _ _ hp]; exact h
  | false =>
    cases hf : brokerFrozen st with
    | true => unfold serverStep; simp [hp, hf]; exact h
    | false =>
      unfold serverStep
      simp only [hp, hf, Bool.false_eq_true, if_false, handlePub_single]
      exact foldFan_isSome _ _ _ _ h

/-- Claim C5: over any sequence of publishes to one channel, a subscription
that is in the channel's set at the start and is still open, with the broker
neither panicked nor deadlocked, at the end, has received exactly the
published items appended to its queue and to its receive history, in publish
order. -/
theorem c5_publish_order (st : BrokerState) (c : String) (items : List EventOrComment)
    (i : Nat) (s : SubState)
    (hnd : (getIds st c).Nodup)
    (hmem : i ∈ getIds st c)
    (hs : getSub st i = some s)
    (hc : s.closed = false)
    (hp : st.panicked = false) (hterm : st.terminated = false) (hd : st.deadlocked = false)
    (hRp : (serverRun st (pubs c items)).panicked = false)
    (hRd : (serverRun st (pubs c items)).deadlocked = false)
    (hRo : optClosed (serverRun st (pubs c items)) i = some false) :
    getSub (serverRun st (pubs c items)) i =
      some { s with queue := s.queue ++ items, received := s.received ++ items } := by
  induction items generalizing st s with
  | nil => simpa using hs
  | cons it rest ih =>
    rw [pubs_cons, serverRun_cons] at hRp hRd hRo ⊢
    have hpub : serverStep st (.publish [c] it) = foldFan st it (getIds st c) :=
      serverStep_publish_single st c it hp hterm hd
    have hp1 : (serverStep st (.publish [c] it)).panicked = false :=
      serverRun_panicked_back _ _ hRp
    have hd1 : (serverStep st (.publish [c] it)).deadlocked = false :=
      serverRun_deadlocked_back _ _ hRd
    have hterm1 : (serverStep st (.publish [c] it)).terminated = false := by
      rw [hpub, foldFan_terminated]; exact hterm
    have hmap1 : (serverStep st (.publish [c] it)).subsMap = st.subsMap := by
      rw [hpub, foldFan_subsMap]
    have hnd1 : (getIds (serverStep st (.publish [c] it)) c).Nodup := by
      rw [getIds_congr _ st c hmap1]; exact hnd
    have hmem1 : i ∈ getIds (serverStep st (.publish [c] it)) c := by
      rw [getIds_congr _ st c hmap1]; exact hmem
    have hisSome1 : (getSub (serverStep st (.publish [c] it)) i).isSome = true :=
      serverStep_publish_isSome st c it i (by rw [hs]; rfl)
    have hnotTrue : ¬ optClosed (serverStep st (.publish [c] it)) i = some true := by
      intro hT
      have h2 := pubsRun_closed_mono c rest _ i hT
      rw [h2] at hRo
      simp at hRo
    have hOC : optClosed (serverStep st (.publish [c] it)) i = some false := by
      cases hsub1 : getSub (serverStep st (.publish [c] it)) i with
      | none => rw [hsub1] at hisSome1; cases hisSome1
      | some s1 =>
        have hb : optClosed (serverStep st (.publish [c] it)) i = some s1.closed := by
          rw [optClosed, hsub1]; rfl
        cases hcl1 : s1.closed with
        | true => exact absurd (by rw [hb, hcl1]) hnotTrue
        | false => rw [hb, hcl1]
    have hval : getSub (serverStep st (.publish [c] it)) i =
        some { s with queue := s.queue ++ [it], received := s.received ++ [it] } := by
      rw [hpub]
      exact foldFan_received (getIds st c) st it i s hp hd hs hc hmem hnd
        (by rw [← hpub]; exact hp1) (by rw [← hpub]; exact hd1) (by rw [← hpub]; exact hOC)
    have hstep := ih (serverStep st (.publish [c] it))
      { s with queue := s.queue ++ [it], received := s.received ++ [it] }
      hnd1 hmem1 hval hc hp1 hterm1 hd1 hRp hRd hRo
    rw [append_cons_eq s.queue it rest, append_cons_eq s.received it rest]
    exact hstep

theorem countP_congr_eq {α : Type} (l : List α) (p q : α → Bool)
    (h : ∀ a ∈ l, p a = q a) : l.countP p = l.countP q := by
  induction l with
  | nil => rfl
  | cons a l ih =>
    rw [List.countP_cons, List.countP_cons, h a (List.mem_cons_self a l),
      ih (fun b hb => h b (List.mem_cons_of_mem a hb))]

theorem isFull_congr (st1 st : BrokerState) (j : Nat)
    (h : getSub st1 j = getSub st j) : isFull st1 j = isFull st j := by
  rw [isFull, isFull, h]

theorem foldFan_slow (ids : List Nat) : ∀ st it,
    st.panicked = false → st.deadlocked = false →
    ids.Nodup →
    (∀ j ∈ ids, ∃ sj, getSub st j = some sj ∧ sj.closed = false) →
    st.unregisterBuf.length + ids.countP (fun j => isFull st j) ≤ 2 →
    (foldFan st it ids).panicked = false ∧
    (foldFan st it ids).deadlocked = false ∧
    (∀ j ∈ ids, ∀ sj, getSub st j = some sj →
      (isFull st j = true →
        getSub (foldFan st it ids) j = some { sj with closed := true } ∧
        j ∈ (foldFan st it ids).unregisterBuf) ∧
      (isFull st j = false →
        getSub (foldFan st it ids) j =
          some { sj with queue := sj.queue ++ [it], received := sj.received ++ [it] })) := by
  induction ids with
  | nil =>
    intro st it hp hd _ _ _
    exact ⟨hp, hd, fun j hj => absurd hj (List.not_mem_nil j)⟩
  | cons j ids ih =>
    intro st it hp hd hnd hall hbudget
    obtain ⟨sj, hsj, hsjop⟩ := hall j (List.mem_cons_self j ids)
    have hnj : j ∉ ids := (List.nodup_cons.mp hnd).1
    have hndt : ids.Nodup := (List.nodup_cons.mp hnd).2
    have hfeq : isFull st j = decide (sj.capacity ≤ sj.queue.length) := by
      rw [isFull, hsj]
    rw [List.countP_cons] at hbudget
    cases hfull : isFull st j with
    | true =>
      have hle : sj.capacity ≤ sj.queue.length := by
        rw [hfull] at hfeq; exact of_decide_eq_true hfeq.symm
      have hroom : ¬ sj.queue.length < sj.capacity := Nat.not_lt.mpr hle
      have hbuf : st.unregisterBuf.length < 2 := by
        rw [hfull] at hbudget; simp at hbudget; omega
      have hA := fanoutOne_trip st it j sj (by simp [hp, hd]) hsj hsjop hroom hbuf
      have hgA : getSub (fanoutOne st it j) j = some { sj with closed := true } := by
        rw [hA, getSub_setSub_self]
      have hgAne : ∀ j' : Nat, j' ≠ j → getSub (fanoutOne st it j) j' = getSub st j' :=
        fun j' hne => fanoutOne_getSub_ne st it j' j hne
      have hpA : (fanoutOne st it j).panicked = false := by rw [hA]; exact hp
      have hdA : (fanoutOne st it j).deadlocked = false := by rw [hA]; exact hd
      have hbufA : (fanoutOne st it j).unregisterBuf = st.unregisterBuf ++ [j] := by
        rw [hA]; rfl
      have hallA : ∀ j' ∈ ids, ∃ sj', getSub (fanoutOne st it j) j' = some sj' ∧
          sj'.closed = false := by
        intro j' hj'
        obtain ⟨sj', h1, h2⟩ := hall j' (List.mem_cons_of_mem j hj')
        exact ⟨sj', by rw [hgAne j' (fun hq => hnj (hq ▸ hj'))]; exact h1, h2⟩
      have hcount : ids.countP (fun j' => isFull (fanoutOne st it j) j') =
          ids.countP (fun j' => isFull st j') := by
        apply countP_congr_eq
        intro j' hj'
        exact isFull_congr _ _ j' (hgAne j' (fun hq => hnj (hq ▸ hj')))
      have hbudgetA : (fanoutOne st it j).unregisterBuf.length +
          ids.countP (fun j' => isFull (fanoutOne st it j) j') ≤ 2 := by
        rw [hbufA, hcount, List.length_append]
        rw [hfull] at hbudget
        simp at hbudget ⊢
        omega
      obtain ⟨hRp, hRd, hRrest⟩ := ih (fanoutOne st it j) it hpA hdA hndt hallA hbudgetA
      rw [foldFan_cons]
      refine ⟨hRp, hRd, ?_⟩
      intro j' hj' sj' hsj'
      rcases List.mem_cons.mp hj' with hq | hq
      · subst hq
        have hsj'' : sj' = sj := by
          rw [hsj] at hsj'; exact (Option.some.inj hsj').symm
        subst hsj''
        constructor
        · intro _
          constructor
          · rw [foldFan_frame ids _ it j' hnj, hgA]
          · apply foldFan_bufMem_mono
            rw [hbufA]
            simp
        · intro hff
          rw [hfull] at hff
          cases hff
      · have hne : j' ≠ j := fun hq2 => hnj (hq2 ▸ hq)
        have hres := hRrest j' hq sj' (by rw [hgAne j' hne]; exact hsj')
        rw [isFull_congr _ _ j' (hgAne j' hne)] at hres
        exact hres
    | false =>
      have hroom : sj.queue.length < sj.capacity := by
        rw [hfull] at hfeq
        have := of_decide_eq_false hfeq.symm
        omega
      have hA := fanoutOne_enqueue st it j sj (by simp [hp, hd]) hsj hsjop hroom
      have hgA : getSub (fanoutOne st it j) j =
          some { sj with queue := sj.queue ++ [it], received := sj.received ++ [it] } := by
        rw [hA, getSub_setSub_self]
      have hgAne : ∀ j' : Nat, j' ≠ j → getSub (fanoutOne st it j) j' = getSub st j' :=
        fun j' hne => fanoutOne_getSub_ne st it j' j hne
      have hpA : (fanoutOne st it j).panicked = false := by rw [hA]; exact hp
      have hdA : (fanoutOne st it j).deadlocked = false := by rw [hA]; exact hd
      have hbufA : (fanoutOne st it j).unregisterBuf = st.unregisterBuf := by
        rw [hA]; rfl
      have hallA : ∀ j' ∈ ids, ∃ sj', getSub (fanoutOne st it j) j' = some sj' ∧
          sj'.closed = false := by
        intro j' hj'
        obtain ⟨sj', h1, h2⟩ := hall j' (List.mem_cons_of_mem j hj')
        exact ⟨sj', by rw [hgAne j' (fun hq => hnj (hq ▸ hj'))]; exact h1, h2⟩
      have hcount : ids.countP (fun j' => isFull (fanoutOne st it j) j') =
          ids.countP (fun j' => isFull st j') := by
        apply countP_congr_eq
        intro j' hj'
        exact isFull_congr _ _ j' (hgAne j' (fun hq => hnj (hq ▸ hj')))
      have hbudgetA : (fanoutOne st it j).unregisterBuf.length +
          ids.countP (fun j' => isFull (fanoutOne st it j) j') ≤ 2 := by
        rw [hbufA, hcount]
        rw [hfull] at hbudget
        simp at hbudget
        omega
      obtain ⟨hRp, hRd, hRrest⟩ := ih (fanoutOne st it j) it hpA hdA hndt hallA hbudgetA
      rw [foldFan_cons]
      refine ⟨hRp, hRd, ?_⟩
      intro j' hj' sj' hsj'
      rcases List.mem_cons.mp hj' with hq | hq
      · subst hq
        have hsj'' : sj' = sj := by
          rw [hsj] at hsj'; exact (Option.some.inj hsj').symm
        subst hsj''
        constructor
        · intro hff
          rw [hfull] at hff
          cases hff
        · intro _
          rw [foldFan_frame ids _ it j' hnj, hgA]
      · have hne : j' ≠ j := fun hq2 => hnj (hq2 ▸ hq)
        have hres := hRrest j' hq sj' (by rw [hgAne j' hne]; exact hsj')
        rw [isFull_congr _ _ j' (hgAne j' hne)] at hres
        exact hres

theorem brokerFrozen_parts (st : BrokerState) (h : brokerFrozen st = false) :
    st.terminated = false ∧ st.panicked = false ∧ st.deadlocked = false := by
  simp [brokerFrozen] at h
  exact ⟨h.1.1, h.1.2, h.2⟩

theorem filter_ne_of_not_mem (l : List Nat) (i : Nat) (h : i ∉ l) :
    l.filter (fun j => j ≠ i) = l := by
  induction l with
  | nil => rfl
  | cons a l ih =>
    have hai : a ≠ i := fun hq => h (by rw [hq] at *; exact List.mem_cons_self i l)
    simp only [List.filter_cons]
    rw [if_pos (by simp [hai]), ih (fun hm => h (List.mem_cons_of_mem a hm))]

theorem removeFromChannel_absent (m : List (String × List Nat)) (c : String) (i : Nat)
    (h : ∀ p ∈ m, i ∉ p.2) : removeFromChannel m c i = m := by
  induction m with
  | nil => rfl
  | cons p rest ih =>
    obtain ⟨k, v⟩ := p
    have hni : i ∉ v := h (k, v) (List.mem_cons_self (k, v) rest)
    have h2 := ih (fun q hq => h q (List.mem_cons_of_mem (k, v) hq))
    by_cases hc : k = c
    · rw [removeFromChannel, if_pos hc, filter_ne_of_not_mem v i hni, h2]
    · rw [removeFromChannel, if_neg hc, h2]

theorem removeFromChannel_nokey (m : List (String × List Nat)) (c : String) (i : Nat)
    (h : lookupA m c = none) : removeFromChannel m c i = m := by
  induction m with
  | nil => rfl
  | cons p rest ih =>
    obtain ⟨k, v⟩ := p
    have hk : k ≠ c := lookupA_none_ne ((k, v) :: rest) c h (k, v)
      (List.mem_cons_self (k, v) rest)
    have hrest : lookupA rest c = none := by
      rw [lookupA] at h
      simpa [hk] using h
    rw [removeFromChannel, if_neg hk, ih hrest]

theorem lookupA_removeFromChannel_self (m : List (String × List Nat)) (c : String) (i : Nat) :
    lookupA (removeFromChannel m c i) c =
      (lookupA m c).map (fun ids => ids.filter (fun j => j ≠ i)) := by
  induction m with
  | nil => rfl
  | cons p rest ih =>
    obtain ⟨k, v⟩ := p
    by_cases hc : k = c
    · subst hc
      rw [removeFromChannel, if_pos rfl, lookupA, if_pos rfl, lookupA, if_pos rfl]
      rfl
    · rw [removeFromChannel, if_neg hc, lookupA, if_neg hc, lookupA, if_neg hc, ih]

theorem handleUnregister_eval (st : BrokerState) (i : Nat) (rest : List Nat) (s : SubState)
    (hbuf : st.unregisterBuf = i :: rest) (hpool : lookupA st.pool i = some s) :
    handleUnregister st =
      { st with unregisterBuf := rest,
                subsMap := removeFromChannel st.subsMap s.channel i } := by
  unfold handleUnregister
  rw [hbuf]
  simp only []
  have : lookupA ({ st with unregisterBuf := rest } : BrokerState).pool i = some s := hpool
  rw [this]

theorem handleUnregister_eval_nosub (st : BrokerState) (i : Nat) (rest : List Nat)
    (hbuf : st.unregisterBuf = i :: rest) (hpool : lookupA st.pool i = none) :
    handleUnregister st = { st with unregisterBuf := rest } := by
  unfold handleUnregister
  rw [hbuf]
  simp only []
  have : lookupA ({ st with unregisterBuf := rest } : BrokerState).pool i = none := hpool
  rw [this]

theorem serverStep_recvUnregister (st : BrokerState) (hf : brokerFrozen st = false) :
    serverStep st .recvUnregister = handleUnregister st := by
  obtain ⟨_, hp, _⟩ := brokerFrozen_parts st hf
  unfold serverStep
  simp [hp, hf]

theorem serverStep_subscribe_eval (st : BrokerState) (i : Nat) (hf : brokerFrozen st = false) :
    serverStep st (.subscribe i) = handleSubscribe st i := by
  obtain ⟨_, hp, _⟩ := brokerFrozen_parts st hf
  unfold serverStep
  simp [hp, hf]

theorem serverStep_quit_eval (st : BrokerState) (hf : brokerFrozen st = false) :
    serverStep st .quit = handleQuit st := by
  obtain ⟨_, hp, _⟩ := brokerFrozen_parts st hf
  unfold serverStep
  simp [hp, hf]

theorem addToChannel_mem (m : List (String × List Nat)) (c : String) (i : Nat) :
    i ∈ (lookupA (addToChannel m c i) c).getD [] := by
  rw [addToChannel]
  cases hl : lookupA m c with
  | none =>
    rw [lookupA_updAssoc_self]
    exact List.mem_singleton_self i
  | some ids =>
    rw [lookupA_updAssoc_self]
    by_cases hmem : i ∈ ids
    · simp [hmem]
    · simp [hmem]

theorem optClosed_false_elim (st : BrokerState) (i : Nat)
    (h : optClosed st i = some false) :
    ∃ s, getSub st i = some s ∧ s.closed = false := by
  cases hg : getSub st i with
  | none => rw [optClosed, hg] at h; cases h
  | some s =>
    rw [optClosed, hg] at h
    exact ⟨s, rfl, Option.some.inj h⟩

theorem closeOne_close (st : BrokerState) (i : Nat) (s : SubState)
    (hp : st.panicked = false) (hs : lookupA st.pool i = some s) (hc : s.closed = false) :
    closeOne st i = setSub st i { s with closed := true } := by
  unfold closeOne
  simp [hp, hs, hc]

theorem closeOne_getSub_ne (st : BrokerState) (i j : Nat) (hij : i ≠ j) :
    getSub (closeOne st j) i = getSub st i := by
  unfold closeOne
  split
  · rfl
  · split
    · rfl
    · split
      · rfl
      · exact getSub_setSub_ne _ _ _ _ (Ne.symm hij)

theorem closeAll_nil (st : BrokerState) : closeAll st [] = st := rfl

theorem closeAll_cons (st : BrokerState) (j : Nat) (ids : List Nat) :
    closeAll st (j :: ids) = closeAll (closeOne st j) ids := rfl

theorem closeAll_frame (ids : List Nat) : ∀ st i, i ∉ ids →
    getSub (closeAll st ids) i = getSub st i := by
  induction ids with
  | nil => intro st i _; rfl
  | cons j ids ih =>
    intro st i hni
    rw [closeAll_cons, ih _ i (fun hm => hni (List.mem_cons_of_mem j hm)),
      closeOne_getSub_ne _ i j (fun hq => hni (hq ▸ List.mem_cons_self j ids))]

theorem closeAll_closes (ids : List Nat) : ∀ st,
    st.panicked = false → ids.Nodup →
    (∀ i ∈ ids, optClosed st i = some false) →
    (closeAll st ids).panicked = false ∧
    (closeAll st ids).terminated = st.terminated ∧
    (closeAll st ids).subsMap = st.subsMap ∧
    (∀ i ∈ ids, optClosed (closeAll st ids) i = some true) := by
  induction ids with
  | nil =>
    intro st hp _ _
    exact ⟨hp, rfl, rfl, fun i hi => absurd hi (List.not_mem_nil i)⟩
  | cons j ids ih =>
    intro st hp hnd hopen
    obtain ⟨s, hs, hc⟩ := optClosed_false_elim st j (hopen j (List.mem_cons_self j ids))
    have hnj : j ∉ ids := (List.nodup_cons.mp hnd).1
    have hA : closeOne st j = setSub st j { s with closed := true } :=
      closeOne_close st j s hp hs hc
    have hopen' : ∀ i ∈ ids, optClosed (closeOne st j) i = some false := by
      intro i hi
      rw [optClosed, closeOne_getSub_ne st i j (fun hq => hnj (hq ▸ hi))]
      exact hopen i (List.mem_cons_of_mem j hi)
    have hpA : (closeOne st j).panicked = false := by rw [hA]; exact hp
    obtain ⟨hRp, hRt, hRm, hRcl⟩ := ih (closeOne st j) hpA (List.nodup_cons.mp hnd).2 hopen'
    rw [closeAll_cons]
    refine ⟨hRp, ?_, ?_, ?_⟩
    · rw [hRt, hA]; rfl
    · rw [hRm, hA]; rfl
    · intro i hi
      rcases List.mem_cons.mp hi with hq | hq
      · subst hq
        rw [optClosed, closeAll_frame ids _ i hnj, hA, getSub_setSub_self]
        rfl
      · exact hRcl i hq

theorem serverStep_term_keep (st : BrokerState) (r : Request) (h : st.terminated = true) :
    (serverStep st r).subsMap = st.subsMap ∧ (serverStep st r).terminated = true := by
  cases hp : st.panicked with
  | true => rw [serverStep_of_panicked st r hp]; exact ⟨rfl, h⟩
  | false =>
    have hf : brokerFrozen st = true := by simp [brokerFrozen, h]
    cases r <;> simp [serverStep, hp, hf, h, setSub] <;>
      (repeat' split) <;> simp [setSub, h]

theorem serverRun_term_keep (rs : List Request) : ∀ st, st.terminated = true →
    (serverRun st rs).subsMap = st.subsMap ∧ (serverRun st rs).terminated = true := by
  induction rs with
  | nil => intro st h; exact ⟨rfl, h⟩
  | cons r rs ih =>
    intro st h
    obtain ⟨h1, h2⟩ := serverStep_term_keep st r h
    obtain ⟨h3, h4⟩ := ih (serverStep st r) h2
    rw [serverRun_cons]
    exact ⟨h3.trans h1, h4⟩

theorem mem_flat_of_lookup (m : List (String × List Nat)) (c : String) (i : Nat)
    (h : i ∈ (lookupA m c).getD []) :
    i ∈ m.foldr (fun p acc => p.2 ++ acc) [] := by
  induction m with
  | nil => rw [lookupA] at h; cases h
  | cons p rest ih =>
    obtain ⟨k, v⟩ := p
    rw [List.foldr_cons]
    by_cases hc : k = c
    · rw [lookupA, if_pos hc] at h
      exact List.mem_append_left _ h
    · rw [lookupA, if_neg hc] at h
      exact List.mem_append_right _ (ih h)

theorem mem_allIds (st : BrokerState) (c : String) (i : Nat)
    (h : i ∈ getIds st c) : i ∈ allIds st :=
  mem_flat_of_lookup st.subsMap c i h

theorem sub_eta (s : SubState) :
    ({ s with queue := s.queue, received := s.received ++ [],
              replayPending := s.replayPending } : SubState) = s := by
  simp

theorem serverStep_readOut_nosub (st : BrokerState) (i : Nat)
    (hp : st.panicked = false) (hs : lookupA st.pool i = none) :
    serverStep st (.readOut i) = st := by
  unfold serverStep
  simp [hp, hs]

theorem serverStep_readOut_nilq (st : BrokerState) (i : Nat) (s : SubState)
    (hp : st.panicked = false) (hs : lookupA st.pool i = some s) (hq : s.queue = []) :
    serverStep st (.readOut i) = st := by
  unfold serverStep
  simp [hp, hs, hq]

theorem serverStep_readOut_consq (st : BrokerState) (i : Nat) (s : SubState)
    (a : EventOrComment) (restQ : List EventOrComment)
    (hp : st.panicked = false) (hs : lookupA st.pool i = some s) (hq : s.queue = a :: restQ) :
    serverStep st (.readOut i) = setSub st i { s with queue := restQ } := by
  unfold serverStep
  simp [hp, hs, hq]

theorem serverStep_replayStep_nosub (st : BrokerState) (i : Nat)
    (hp : st.panicked = false) (hs : lookupA st.pool i = none) :
    serverStep st (.replayStep i) = st := by
  unfold serverStep
  simp [hp, hs]

theorem serverStep_replayStep_nilp (st : BrokerState) (i : Nat) (s : SubState)
    (hp : st.panicked = false) (hs : lookupA st.pool i = some s)
    (hpend : s.replayPending = []) :
    serverStep st (.replayStep i) = st := by
  unfold serverStep
  simp [hp, hs, hpend]

theorem serverStep_replayStep_closed (st : BrokerState) (i : Nat) (s : SubState)
    (a : EventOrComment) (restP : List EventOrComment)
    (hp : st.panicked = false) (hs : lookupA st.pool i = some s)
    (hpend : s.replayPending = a :: restP) (hc : s.closed = true) :
    serverStep st (.replayStep i) = { st with panicked := true } := by
  unfold serverStep
  simp [hp, hs, hpend, hc]

theorem serverStep_replayStep_send (st : BrokerState) (i : Nat) (s : SubState)
    (a : EventOrComment) (restP : List EventOrComment)
    (hp : st.panicked = false) (hs : lookupA st.pool i = some s)
    (hpend : s.replayPending = a :: restP) (hc : s.closed = false)
    (hroom : s.queue.length < s.capacity) :
    serverStep st (.replayStep i) =
      setSub st i { s with queue := s.queue ++ [a], received := s.received ++ [a],
                           replayPending := restP } := by
  unfold serverStep
  simp [hp, hs, hpend, hc, hroom]

theorem serverStep_replayStep_blocked (st : BrokerState) (i : Nat) (s : SubState)
    (a : EventOrComment) (restP : List EventOrComment)
    (hp : st.panicked = false) (hs : lookupA st.pool i = some s)
    (hpend : s.replayPending = a :: restP) (hc : s.closed = false)
    (hroom : ¬ s.queue.length < s.capacity) :
    serverStep st (.replayStep i) = st := by
  unfold serverStep
  simp [hp, hs, hpend, hc, hroom]

theorem serverStep_readOut_getSub_ne (st : BrokerState) (i j : Nat) (hij : i ≠ j) :
    getSub (serverStep st (.readOut j)) i = getSub st i := by
  cases hp : st.panicked with
  | true => rw [serverStep_of_panicked st _ hp]
  | false =>
    cases hl : lookupA st.pool j with
    | none => rw [serverStep_readOut_nosub st j hp hl]
    | some s =>
      cases hq : s.queue with
      | nil => rw [serverStep_readOut_nilq st j s hp hl hq]
      | cons a restQ =>
        rw [serverStep_readOut_consq st j s a restQ hp hl hq]
        exact getSub_setSub_ne _ _ _ _ (Ne.symm hij)

theorem serverStep_replayStep_getSub_ne (st : BrokerState) (i j : Nat) (hij : i ≠ j) :
    getSub (serverStep st (.replayStep j)) i = getSub st i := by
  cases hp : st.panicked with
  | true => rw [serverStep_of_panicked st _ hp]
  | false =>
    cases hl : lookupA st.pool j with
    | none => rw [serverStep_replayStep_nosub st j hp hl]
    | some s =>
      cases hpend : s.replayPending with
      | nil => rw [serverStep_replayStep_nilp st j s hp hl hpend]
      | cons a restP =>
        by_cases hc : s.closed = true
        · rw [serverStep_replayStep_closed st j s a restP hp hl hpend hc]
          rfl
        · rw [Bool.not_eq_true] at hc
          by_cases hroom : s.queue.length < s.capacity
          · rw [serverStep_replayStep_send st j s a restP hp hl hpend hc hroom]
            exact getSub_setSub_ne _ _ _ _ (Ne.symm hij)
          · rw [serverStep_replayStep_blocked st j s a restP hp hl hpend hc hroom]

theorem drainStep_sub (st : BrokerState) (i : Nat) (s : SubState) (r : Request)
    (hr : isDrainOrReplay r = true) (hs : getSub st i = some s) :
    ∃ q P1 P2, s.replayPending = P1 ++ P2 ∧
      getSub (serverStep st r) i =
        some { s with queue := q, received := s.received ++ P1, replayPending := P2 } := by
  cases r with
  | mkSub a b c d => simp [isDrainOrReplay] at hr
  | subscribe a => simp [isDrainOrReplay] at hr
  | register a b => simp [isDrainOrReplay] at hr
  | publish a b => simp [isDrainOrReplay] at hr
  | sendUnregister a => simp [isDrainOrReplay] at hr
  | recvUnregister => simp [isDrainOrReplay] at hr
  | quit => simp [isDrainOrReplay] at hr
  | readOut j =>
    cases hp : st.panicked with
    | true =>
      refine ⟨s.queue, [], s.replayPending, by simp, ?_⟩
      rw [serverStep_of_panicked st _ hp, sub_eta s]
      exact hs
    | false =>
      by_cases hij : i = j
      · subst hij
        cases hq : s.queue with
        | nil =>
          refine ⟨s.queue, [], s.replayPending, by simp, ?_⟩
          rw [serverStep_readOut_nilq st i s hp hs hq, sub_eta s]
          exact hs
        | cons a restQ =>
          refine ⟨restQ, [], s.replayPending, by simp, ?_⟩
          rw [serverStep_readOut_consq st i s a restQ hp hs hq, getSub_setSub_self]
          simp
      · refine ⟨s.queue, [], s.replayPending, by simp, ?_⟩
        rw [serverStep_readOut_getSub_ne st i j hij, sub_eta s]
        exact hs
  | replayStep j =>
    cases hp : st.panicked with
    | true =>
      refine ⟨s.queue, [], s.replayPending, by simp, ?_⟩
      rw [serverStep_of_panicked st _ hp, sub_eta s]
      exact hs
    | false =>
      by_cases hij : i = j
      · subst hij
        cases hpend : s.replayPending with
        | nil =>
          refine ⟨s.queue, [], s.replayPending, by simp [hpend], ?_⟩
          rw [serverStep_replayStep_nilp st i s hp hs hpend, sub_eta s]
          exact hs
        | cons a restP =>
          by_cases hc : s.closed = true
          · refine ⟨s.queue, [], s.replayPending, by simp [hpend], ?_⟩
            rw [serverStep_replayStep_closed st i s a restP hp hs hpend hc, sub_eta s]
            exact hs
          · rw [Bool.not_eq_true] at hc
            by_cases hroom : s.queue.length < s.capacity
            · refine ⟨s.queue ++ [a], [a], restP, by simp [hpend], ?_⟩
              rw [serverStep_replayStep_send st i s a restP hp hs hpend hc hroom,
                getSub_setSub_self]
            · refine ⟨s.queue, [], s.replayPending, by simp [hpend], ?_⟩
              rw [serverStep_replayStep_blocked st i s a restP hp hs hpend hc hroom,
                sub_eta s]
              exact hs
      · refine ⟨s.queue, [], s.replayPending, by simp, ?_⟩
        rw [serverStep_replayStep_getSub_ne st i j hij, sub_eta s]
        exact hs

theorem replayRun_sub (sched : List Request) : ∀ st i s,
    (∀ r ∈ sched, isDrainOrReplay r = true) →
    getSub st i = some s →
    ∃ q P1 P2, s.replayPending = P1 ++ P2 ∧
      getSub (serverRun st sched) i =
        some { s with queue := q, received := s.received ++ P1, replayPending := P2 } := by
  induction sched with
  | nil =>
    intro st i s _ hs
    refine ⟨s.queue, [], s.replayPending, by simp, ?_⟩
    rw [serverRun_nil, sub_eta s]
    exact hs
  | cons r rs ih =>
    intro st i s hall hs
    obtain ⟨q0, P1a, P2a, hsplit, hstep⟩ :=
      drainStep_sub st i s r (hall r (List.mem_cons_self r rs)) hs
    obtain ⟨q, P1b, P2, hsplit2, hrun⟩ :=
      ih (serverStep st r) i _ (fun r' hr' => hall r' (List.mem_cons_of_mem r hr')) hstep
    refine ⟨q, P1a ++ P1b, P2, ?_, ?_⟩
    · rw [hsplit, show P2a = P1b ++ P2 from hsplit2]
      simp [List.append_assoc]
    · rw [serverRun_cons, hrun]
      simp [List.append_assoc]

/-- Claim C1, code evaluation at the failing input: after a slow-consumer
trip, the subscription is still in the channel's fan-out set while its queue
is already closed, and the very next publish to that channel panics with a
send into the closed queue. -/
theorem c1_closed_sub_in_fanout :
    0 ∈ getIds (serverRun (initialState false) c1trace) "a" ∧
    optClosed (serverRun (initialState false) c1trace) 0 = some true ∧
    (serverRun (initialState false) (c1trace ++ [.publish ["a"] (.event 3)])).panicked = true := by
  refine ⟨by decide, by decide, by decide⟩

/-- Claim C2, code evaluation at the failing input: a replay dispatcher with
two items still pending whose output queue was closed by the slow-consumer
path does not detect the closed state; its next blocking send panics. -/
theorem c2_replay_send_on_closed_panics :
    optClosed (serverRun (initialState false) c2trace) 0 = some true ∧
    (getSub (serverRun (initialState false) c2trace) 0).map (fun s => s.replayPending)
      = some [.event 102, .event 103] ∧
    (serverRun (initialState false) c2trace).panicked = false ∧
    (serverRun (initialState false) (c2trace ++ [.replayStep 0])).panicked = true := by
  refine ⟨by decide, by decide, by decide, by decide⟩

/-- Claim C3, counterexample: processing an Unsubscribe for an active
subscription removes it from the channel's active set but leaves its output
queue open, contradicting the claim that the queue is closed as well. -/
theorem c3_unsubscribe_does_not_close :
    0 ∉ getIds (serverRun (initialState false) c3trace) "a" ∧
    optClosed (serverRun (initialState false) c3trace) 0 = some false := by
  refine ⟨by decide, by decide⟩

/-- Claim C3, amended: processing an Unsubscribe request removes the
subscription from its channel's active set and consumes the buffered request,
but touches no subscription object: no queue is closed and no panic occurs. -/
theorem c3_unregister_removes_only (st : BrokerState) (i : Nat) (rest : List Nat)
    (s : SubState)
    (hf : brokerFrozen st = false)
    (hbuf : st.unregisterBuf = i :: rest)
    (hpool : getSub st i = some s) :
    getIds (serverStep st .recvUnregister) s.channel
        = (getIds st s.channel).filter (fun j => j ≠ i) ∧
    (serverStep st .recvUnregister).pool = st.pool ∧
    (serverStep st .recvUnregister).panicked = false ∧
    (serverStep st .recvUnregister).unregisterBuf = rest := by
  obtain ⟨hterm, hp, hd⟩ := brokerFrozen_parts st hf
  rw [serverStep_recvUnregister st hf, handleUnregister_eval st i rest s hbuf hpool]
  refine ⟨?_, rfl, hp, rfl⟩
  show (lookupA (removeFromChannel st.subsMap s.channel i) s.channel).getD []
      = ((lookupA st.subsMap s.channel).getD []).filter (fun j => j ≠ i)
  rw [lookupA_removeFromChannel_self]
  cases lookupA st.subsMap s.channel <;> rfl

theorem c3_unregister_removes_only_witness :
    getIds (serverStep (serverRun (initialState false) c3wtrace) .recvUnregister) "a"
        = (getIds (serverRun (initialState false) c3wtrace) "a").filter (fun j => j ≠ 0) ∧
    (serverStep (serverRun (initialState false) c3wtrace) .recvUnregister).pool
        = (serverRun (initialState false) c3wtrace).pool ∧
    (serverStep (serverRun (initialState false) c3wtrace) .recvUnregister).panicked = false ∧
    (serverStep (serverRun (initialState false) c3wtrace) .recvUnregister).unregisterBuf = [] :=
  c3_unregister_removes_only (serverRun (initialState false) c3wtrace) 0 []
    ⟨"a", "", 4, [], false, [], [], false⟩ (by decide) (by decide) (by decide)

/-- Claim C4, counterexample: with three capacity-1 subscribers all full, the
second publish trips three slow consumers; the third trip overflows the
capacity-2 unregister buffer and blocks the broker forever, so the publish
does block, and the third subscription is neither closed nor unregistered. -/
theorem c4_three_slow_consumers_deadlock :
    (serverRun (initialState false) c4trace).deadlocked = true ∧
    optClosed (serverRun (initialState false) c4trace) 2 = some false ∧
    2 ∈ getIds (serverRun (initialState false) c4trace) "a" := by
  refine ⟨by decide, by decide, by decide⟩

/-- Claim C6, counterexample: a subscription already closed by the
slow-consumer path but still in the fan-out map makes the shutdown loop call
close on a closed queue, which panics; the other, still-open subscription
never has its queue closed. -/
theorem c6_stale_closed_sub_panics_shutdown :
    (serverRun (initialState false) c6trace).panicked = true ∧
    optClosed (serverRun (initialState false) c6trace) 1 = some false ∧
    1 ∈ getIds (serverRun (initialState false) c6trace) "a" := by
  refine ⟨by decide, by decide, by decide⟩

/-- Claim C7: a second Unsubscribe for a subscription that is in no
channel's set is a no-op: no panic, the fan-out map and every subscription
object (in particular every closed flag) unchanged, only the buffered
request consumed. -/
theorem c7_duplicate_unsubscribe_noop (st : BrokerState) (i : Nat) (rest : List Nat)
    (hf : brokerFrozen st = false)
    (hbuf : st.unregisterBuf = i :: rest)
    (habs : ∀ p ∈ st.subsMap, i ∉ p.2) :
    (serverStep st .recvUnregister).panicked = false ∧
    (serverStep st .recvUnregister).subsMap = st.subsMap ∧
    (serverStep st .recvUnregister).pool = st.pool ∧
    (serverStep st .recvUnregister).unregisterBuf = rest := by
  obtain ⟨hterm, hp, hd⟩ := brokerFrozen_parts st hf
  rw [serverStep_recvUnregister st hf]
  cases hl : lookupA st.pool i with
  | none =>
    rw [handleUnregister_eval_nosub st i rest hbuf hl]
    exact ⟨hp, rfl, rfl, rfl⟩
  | some s =>
    rw [handleUnregister_eval st i rest s hbuf hl]
    refine ⟨hp, ?_, rfl, rfl⟩
    exact removeFromChannel_absent st.subsMap s.channel i habs

theorem c7_duplicate_unsubscribe_noop_witness :
    (serverStep (serverRun (initialState false) c7wtrace) .recvUnregister).panicked = false ∧
    (serverStep (serverRun (initialState false) c7wtrace) .recvUnregister).subsMap
        = (serverRun (initialState false) c7wtrace).subsMap ∧
    (serverStep (serverRun (initialState false) c7wtrace) .recvUnregister).pool
        = (serverRun (initialState false) c7wtrace).pool ∧
    (serverStep (serverRun (initialState false) c7wtrace) .recvUnregister).unregisterBuf = [] :=
  c7_duplicate_unsubscribe_noop (serverRun (initialState false) c7wtrace) 0 []
    (by decide) (by decide) (by decide)

/-- Claim C10: publishing to a channel name with no entry in the fan-out map
leaves the whole broker state unchanged, and unregistering a subscription
whose channel the broker has never seen changes neither the fan-out map nor
the repository map and panics nothing. -/
theorem c10_unknown_channel_noop (st : BrokerState) (c : String) (i : Nat) (s : SubState)
    (item : EventOrComment)
    (hf : brokerFrozen st = false)
    (hnochan : lookupA st.subsMap c = none)
    (hpool : getSub st i = some s)
    (hch : s.channel = c)
    (hbuf : st.unregisterBuf = [i]) :
    serverStep st (.publish [c] item) = st ∧
    (serverStep st .recvUnregister).subsMap = st.subsMap ∧
    (serverStep st .recvUnregister).repos = st.repos ∧
    (serverStep st .recvUnregister).panicked = false := by
  obtain ⟨hterm, hp, hd⟩ := brokerFrozen_parts st hf
  have hids : getIds st c = [] := by rw [getIds, hnochan]; rfl
  refine ⟨?_, ?_, ?_, ?_⟩
  · rw [serverStep_publish_single st c item hp hterm hd, hids, foldFan_nil]
  · rw [serverStep_recvUnregister st hf, handleUnregister_eval st i [] s hbuf hpool]
    show removeFromChannel st.subsMap s.channel i = st.subsMap
    rw [hch]
    exact removeFromChannel_nokey st.subsMap c i hnochan
  · rw [serverStep_recvUnregister st hf, handleUnregister_eval st i [] s hbuf hpool]
  · rw [serverStep_recvUnregister st hf, handleUnregister_eval st i [] s hbuf hpool]
    exact hp

theorem c10_unknown_channel_noop_witness :
    serverStep (serverRun (initialState false) c10wtrace) (.publish ["x"] (.event 9))
        = serverRun (initialState false) c10wtrace ∧
    (serverStep (serverRun (initialState false) c10wtrace) .recvUnregister).subsMap
        = (serverRun (initialState false) c10wtrace).subsMap ∧
    (serverStep (serverRun (initialState false) c10wtrace) .recvUnregister).repos
        = (serverRun (initialState false) c10wtrace).repos ∧
    (serverStep (serverRun (initialState false) c10wtrace) .recvUnregister).panicked = false :=
  c10_unknown_channel_noop (serverRun (initialState false) c10wtrace) "x" 0
    ⟨"x", "", 3, [], false, [], [], false⟩ (.event 9)
    (by decide) (by decide) (by decide) (by decide) (by decide)

/-- Claim C4, amended: for a publish to a single channel from a state whose
unregister buffer is empty, whose channel set has no duplicate and no closed
subscription, and in which at most two subscriptions are full: every
full-queue subscription does not receive the item, has its queue closed and
its id enqueued on the capacity-2 unregister buffer (removal from the channel
set happens when the broker later processes that buffered request), the
publish completes without blocking or panicking, and every other subscription
receives exactly the item; with capacity 2 and three publishes to one
undrained subscriber, the subscriber ends closed and unregistered having
received exactly the first two items. -/
theorem c4_slow_consumer_drop :
    (∀ st c item,
      st.panicked = false → st.deadlocked = false → st.terminated = false →
      st.unregisterBuf = [] →
      (getIds st c).Nodup →
      (∀ j ∈ getIds st c, optClosed st j = some false) →
      (getIds st c).countP (fun j => isFull st j) ≤ 2 →
      (serverStep st (.publish [c] item)).panicked = false ∧
      (serverStep st (.publish [c] item)).deadlocked = false ∧
      (∀ j ∈ getIds st c, ∀ sj, getSub st j = some sj →
        (isFull st j = true →
          getSub (serverStep st (.publish [c] item)) j = some { sj with closed := true } ∧
          j ∈ (serverStep st (.publish [c] item)).unregisterBuf) ∧
        (isFull st j = false →
          getSub (serverStep st (.publish [c] item)) j =
            some { sj with queue := sj.queue ++ [item],
                           received := sj.received ++ [item] }))) ∧
    ((getSub (serverRun (initialState false) c4strace) 0).map (fun s => s.received)
        = some [.event 1, .event 2] ∧
      optClosed (serverRun (initialState false) c4strace) 0 = some true ∧
      0 ∉ getIds (serverRun (initialState false) c4strace) "ch" ∧
      (serverRun (initialState false) c4strace).deadlocked = false ∧
      (serverRun (initialState false) c4strace).panicked = false) := by
  constructor
  · intro st c item hp hd hterm hbuf hnd hopen hcount
    rw [serverStep_publish_single st c item hp hterm hd]
    exact foldFan_slow (getIds st c) st item hp hd hnd
      (fun j hj => optClosed_false_elim st j (hopen j hj))
      (by rw [hbuf]; simpa using hcount)
  · refine ⟨by decide, by decide, by decide, by decide, by decide⟩

theorem c4_slow_consumer_drop_witness :
    (serverStep (serverRun (initialState false) c4wtrace)
        (.publish ["b"] (.event 2))).panicked = false ∧
    (serverStep (serverRun (initialState false) c4wtrace)
        (.publish ["b"] (.event 2))).deadlocked = false ∧
    (∀ j ∈ getIds (serverRun (initialState false) c4wtrace) "b", ∀ sj,
      getSub (serverRun (initialState false) c4wtrace) j = some sj →
      (isFull (serverRun (initialState false) c4wtrace) j = true →
        getSub (serverStep (serverRun (initialState false) c4wtrace)
            (.publish ["b"] (.event 2))) j = some { sj with closed := true } ∧
        j ∈ (serverStep (serverRun (initialState false) c4wtrace)
            (.publish ["b"] (.event 2))).unregisterBuf) ∧
      (isFull (serverRun (initialState false) c4wtrace) j = false →
        getSub (serverStep (serverRun (initialState false) c4wtrace)
            (.publish ["b"] (.event 2))) j =
          some { sj with queue := sj.queue ++ [.event 2],
                         received := sj.received ++ [.event 2] })) :=
  c4_slow_consumer_drop.1 (serverRun (initialState false) c4wtrace) "b" (.event 2)
    (by decide) (by decide) (by decide) (by decide) (by decide) (by decide) (by decide)

theorem c5_publish_order_witness :
    getSub (serverRun (serverRun (initialState false) c5wtrace)
        (pubs "a" [.event 1, .event 2])) 0
      = some ⟨"a", "", 3, [.event 1, .event 2], false, [.event 1, .event 2], [], false⟩ :=
  c5_publish_order (serverRun (initialState false) c5wtrace) "a" [.event 1, .event 2] 0
    ⟨"a", "", 3, [], false, [], [], false⟩
    (by decide) (by decide) (by decide) (by decide) (by decide) (by decide) (by decide)
    (by decide) (by decide) (by decide)

/-- Claim C6, amended: provided every subscription still in the fan-out map
has an open queue when the Shutdown request is processed, the broker closes
the output queue of every subscription in every channel's set without
panicking, terminates its loop permanently, and no request processed
afterwards ever changes the fan-out map, so no later subscription attaches. -/
theorem c6_shutdown_closes_all (st : BrokerState)
    (hf : brokerFrozen st = false)
    (hnd : (allIds st).Nodup)
    (hopen : ∀ i ∈ allIds st, optClosed st i = some false) :
    (∀ c i, i ∈ getIds st c → optClosed (serverStep st .quit) i = some true) ∧
    (serverStep st .quit).terminated = true ∧
    (serverStep st .quit).panicked = false ∧
    (∀ rs, (serverRun (serverStep st .quit) rs).subsMap
        = (serverStep st .quit).subsMap) := by
  obtain ⟨hterm, hp, hd⟩ := brokerFrozen_parts st hf
  obtain ⟨hcp, hct, hcm, hccl⟩ := closeAll_closes (allIds st) st hp hnd hopen
  rw [serverStep_quit_eval st hf]
  refine ⟨?_, rfl, hcp, ?_⟩
  · intro c i hi
    exact hccl i (mem_allIds st c i hi)
  · intro rs
    exact (serverRun_term_keep rs (handleQuit st) rfl).1

theorem c6_shutdown_closes_all_witness :
    (∀ c i, i ∈ getIds (serverRun (initialState false) c6wtrace) c →
      optClosed (serverStep (serverRun (initialState false) c6wtrace) .quit) i = some true) ∧
    (serverStep (serverRun (initialState false) c6wtrace) .quit).terminated = true ∧
    (serverStep (serverRun (initialState false) c6wtrace) .quit).panicked = false ∧
    (∀ rs, (serverRun (serverStep (serverRun (initialState false) c6wtrace) .quit) rs).subsMap
        = (serverStep (serverRun (initialState false) c6wtrace) .quit).subsMap) :=
  c6_shutdown_closes_all (serverRun (initialState false) c6wtrace)
    (by decide) (by decide) (by decide)

/-- Claim C8: a replay dispatcher pushes its whole pending sequence into the
subscription's output queue in order with blocking sends: over any schedule
of reader receives and replay sends after which the pending list is empty,
the queue received exactly the yielded items, in the source's order, none
dropped; concretely, a repository yielding three historical items leaves
exactly those three items, in order, at the head of the queue, followed by a
subsequently published live item. -/
theorem c8_replay_in_order :
    (∀ sched st i s,
      (∀ r ∈ sched, isDrainOrReplay r = true) →
      getSub st i = some s →
      (getSub (serverRun st sched) i).map (fun x => x.replayPending) = some [] →
      (getSub (serverRun st sched) i).map (fun x => x.received)
        = some (s.received ++ s.replayPending)) ∧
    ((getSub (serverRun (initialState false) c8trace) 0).map (fun x => x.received)
        = some [.event 101, .event 102, .event 103, .event 4] ∧
     (getSub (serverRun (initialState false) c8trace) 0).map (fun x => x.queue)
        = some [.event 101, .event 102, .event 103, .event 4]) := by
  constructor
  · intro sched st i s hall hs hdone
    obtain ⟨q, P1, P2, hsplit, hrun⟩ := replayRun_sub sched st i s hall hs
    rw [hrun] at hdone ⊢
    have hP2 : P2 = [] := by simpa using hdone
    subst hP2
    rw [List.append_nil] at hsplit
    simp [hsplit]
  · refine ⟨by decide, by decide⟩

theorem c8_replay_in_order_witness :
    (getSub (serverRun (serverRun (initialState false) c8wtrace) c8wsched) 0).map
        (fun x => x.received)
      = some ([] ++ [.event 101, .event 102, .event 103]) :=
  c8_replay_in_order.1 c8wsched (serverRun (initialState false) c8wtrace) 0
    ⟨"news", "tok", 5, [], false, [], [.event 101, .event 102, .event 103], true⟩
    (by decide) (by decide) (by decide)

/-- Claim C9: processing a Subscribe request always inserts the subscription
into its channel's set and never panics; the replay dispatcher is started if
and only if the resume token is non-empty or replay-all is set, and a
repository is registered for the channel; with no registered repository the
subscription object is left untouched (replay silently skipped). -/
theorem c9_subscribe_adds_and_replays (st : BrokerState) (i : Nat) (s : SubState)
    (hf : brokerFrozen st = false)
    (hs : getSub st i = some s)
    (hfresh : s.replayStarted = false) :
    i ∈ getIds (serverStep st (.subscribe i)) s.channel ∧
    (serverStep st (.subscribe i)).panicked = false ∧
    (getSub (serverStep st (.subscribe i)) i).map (fun x => x.replayStarted)
      = some ((st.replayAll || s.lastEventID.length != 0) &&
              (lookupA st.repos s.channel).isSome) ∧
    (lookupA st.repos s.channel = none →
      getSub (serverStep st (.subscribe i)) i = some s) := by
  obtain ⟨hterm, hp, hd⟩ := brokerFrozen_parts st hf
  have hs' : lookupA st.pool i = some s := hs
  rw [serverStep_subscribe_eval st i hf]
  by_cases hcond : (st.replayAll || s.lastEventID.length != 0) = true
  · cases hrep : lookupA st.repos s.channel with
    | some repo =>
      have heval : handleSubscribe st i =
          setSub { st with subsMap := addToChannel st.subsMap s.channel i } i
            { s with replayPending := repo s.channel s.lastEventID,
                     replayStarted := true } := by
        unfold handleSubscribe
        rw [hs']
        simp [hcond, hrep]
      rw [heval]
      refine ⟨?_, hp, ?_, ?_⟩
      · show i ∈ (lookupA (addToChannel st.subsMap s.channel i) s.channel).getD []
        exact addToChannel_mem st.subsMap s.channel i
      · rw [getSub_setSub_self]
        simp [hcond, hrep]
      · intro hnone
        exact Option.noConfusion hnone
    | none =>
      have heval : handleSubscribe st i =
          { st with subsMap := addToChannel st.subsMap s.channel i } := by
        unfold handleSubscribe
        rw [hs']
        simp [hcond, hrep]
      rw [heval]
      refine ⟨?_, hp, ?_, ?_⟩
      · show i ∈ (lookupA (addToChannel st.subsMap s.channel i) s.channel).getD []
        exact addToChannel_mem st.subsMap s.channel i
      · show (lookupA st.pool i).map (fun x => x.replayStarted) = _
        rw [hs']
        simp [hrep, hfresh]
      · intro _
        show lookupA st.pool i = some s
        exact hs'
  · have hcondf : (st.replayAll || s.lastEventID.length != 0) = false := by
      cases hb : (st.replayAll || s.lastEventID.length != 0) with
      | false => rfl
      | true => exact absurd hb hcond
    have heval : handleSubscribe st i =
        { st with subsMap := addToChannel st.subsMap s.channel i } := by
      unfold handleSubscribe
      rw [hs']
      simp [hcondf]
    rw [heval]
    refine ⟨?_, hp, ?_, ?_⟩
    · show i ∈ (lookupA (addToChannel st.subsMap s.channel i) s.channel).getD []
      exact addToChannel_mem st.subsMap s.channel i
    · show (lookupA st.pool i).map (fun x => x.replayStarted) = _
      rw [hs']
      simp [hcondf, hfresh]
    · intro _
      show lookupA st.pool i = some s
      exact hs'

theorem c9_subscribe_adds_and_replays_witness :
    0 ∈ getIds (serverStep (serverRun (initialState false) c9wtrace) (.subscribe 0)) "news" ∧
    (serverStep (serverRun (initialState false) c9wtrace) (.subscribe 0)).panicked = false ∧
    (getSub (serverStep (serverRun (initialState false) c9wtrace) (.subscribe 0)) 0).map
        (fun x => x.replayStarted)
      = some (((serverRun (initialState false) c9wtrace).replayAll ||
               ("tok".length != 0)) &&
              (lookupA (serverRun (initialState false) c9wtrace).repos "news").isSome) ∧
    (lookupA (serverRun (initialState false) c9wtrace).repos "news" = none →
      getSub (serverStep (serverRun (initialState false) c9wtrace) (.subscribe 0)) 0
        = some ⟨"news", "tok", 4, [], false, [], [], false⟩) :=
  c9_subscribe_adds_and_replays (serverRun (initialState false) c9wtrace) 0
    ⟨"news", "tok", 4, [], false, [], [], false⟩
    (by decide) (by decide) (by decide)

end Eventsource
